import Mathlib

/-!
Shallow embedding of the zkTree recursive proof aggregator.

The model translates the repository's data structures and operations:
  * `UserProof`, `LeafProof`, `NodeProof`, `ProofData` (proof abstraction layer),
  * `LeafCircuit` / `NodeCircuit` compile, fill and prove pipelines
    (the plonky2 `CircuitBuilder` is modelled by a virtual-target counter,
    the ordered list of registered public-input targets and the recorded
    constraints; the `PartialWitness` is an association list of target
    assignments; building and proving are mediated by an abstract `Backend`
    record standing for the opaque plonky2 library),
  * the `ZkTree` driver (`new`, `root`, `verify`) and its level loop.

Fallible Rust functions return values in `PanicOr`: `.err` models a returned
`Result::Err`, `.panic` models a Rust panic (failed `unwrap`, index out of
bounds, `zip_eq` length mismatch); `debug_assert!` is modelled as compiled
out, as in release builds.
-/

set_option linter.unusedVariables false

/-- Result type distinguishing a returned error from a Rust panic. -/
inductive PanicOr (ε : Type) (α : Type) where
  | panic : PanicOr ε α
  | err : ε → PanicOr ε α
  | ok : α → PanicOr ε α
deriving DecidableEq, Repr

def PanicOr.bind {ε α β : Type} : PanicOr ε α → (α → PanicOr ε β) → PanicOr ε β
  | .panic, _ => .panic
  | .err e, _ => .err e
  | .ok a, f => f a

instance {ε : Type} : Monad (PanicOr ε) where
  pure := .ok
  bind := PanicOr.bind

/-- Error taxonomy of the system (the repository uses `anyhow` messages;
constructors here name the corresponding failure sites). -/
inductive ZkError where
  | verifierDigestUnset
  | circuitDigestMismatch
  | siblingDigestMismatch
  | backendProveError
  | backendVerifyError
  | inputCommitmentMismatch
deriving DecidableEq, Repr

/-- plonky2 `HashOut<F>`: a four-element digest. -/
structure HashOut (F : Type) where
  a : F
  b : F
  c : F
  d : F
deriving DecidableEq, Repr

def HashOut.elements {F : Type} (h : HashOut F) : List F := [h.a, h.b, h.c, h.d]

/-- plonky2 `hash_or_noop`: inputs of length at most four are returned
padded with zeros (`HashOut::from_partial`), longer inputs are sponge-hashed
by the given `hash_no_pad` function. -/
def hashOrNoop {F : Type} [Zero F] (hashNoPad : List F → HashOut F) (xs : List F) : HashOut F :=
  if xs.length ≤ 4 then ⟨xs.getD 0 0, xs.getD 1 0, xs.getD 2 0, xs.getD 3 0⟩
  else hashNoPad xs

/-- The part of plonky2 `CommonCircuitData` the embedded code reads:
the declared number of public inputs (drives `add_virtual_proof_with_pis`)
and the FRI cap height (drives `add_virtual_verifier_data`). All other
fields are opaque to the embedded code. -/
structure CommonData where
  numPublicInputs : Nat
  capHeight : Nat
deriving DecidableEq, Repr

/-- `ProofData { proof_with_pis, circuit_data }`: the proof's public inputs,
the circuit's verifier-only data (`circuit_digest` and `constants_sigmas_cap`)
and its `common` description. -/
structure ProofData (F : Type) where
  publicInputs : List F
  verifierDigest : HashOut F
  verifierCap : List (HashOut F)
  common : CommonData
deriving DecidableEq, Repr

/-- `UserProof<C, F, D>`. -/
structure UserProof (F : Type) where
  proofData : ProofData F
  inputs : List (List F)
  userCircuitHash : HashOut F
deriving DecidableEq, Repr

def UserProof.userPublicInputs {F : Type} (u : UserProof F) : List (List F) := u.inputs

/-- `UserProof::input_hash`: `PoseidonHash::hash_or_noop(&self.inputs.concat())`.
The hasher is the concrete Poseidon native hash, not the configuration's
generic hasher. -/
def UserProof.inputHash {F : Type} [Zero F] (poseidonNP : List F → HashOut F)
    (u : UserProof F) : HashOut F :=
  hashOrNoop poseidonNP u.inputs.flatten

def UserProof.circuitHash {F : Type} (u : UserProof F) : HashOut F := u.userCircuitHash

def UserProof.circuitVerifierDigest {F : Type} (u : UserProof F) : HashOut F := u.userCircuitHash

/-- Constraints recorded by the circuit builder. Targets are natural-number
identifiers; a hash target is represented by its base identifier (it owns the
four consecutive identifiers starting there). -/
inductive Constraint where
  | connect : Nat → Nat → Constraint
  | connectHashes : Nat → Nat → Constraint
  | hashGadget : Nat → List Nat → Constraint
  | verifyProofGadget : Nat → Nat → CommonData → Constraint
  | unsat : Constraint
deriving DecidableEq, Repr

/-- `CircuitBuilder` state: next fresh virtual target, registered public-input
targets in registration order, recorded constraints. -/
structure BuilderState where
  nextTarget : Nat
  publicInputs : List Nat
  constraints : List Constraint
deriving DecidableEq, Repr

/-- `n` consecutive virtual targets starting at `base`. -/
def allocSeq (base n : Nat) : List Nat := (List.range n).map (fun i => base + i)

/-- The four target identifiers of a hash target with base `base`. -/
def hashEls (base : Nat) : List Nat := [base, base + 1, base + 2, base + 3]

/-- Base identifiers of the `k` hash targets of a Merkle-cap target. -/
def allocCapBases (base k : Nat) : List Nat := (List.range k).map (fun i => base + 4 * i)

/-- Allocation of one virtual target per element of a nested input list,
mirroring the nested `add_virtual_target` loops of `LeafCircuit::compile`. -/
def allocNested {F : Type} (base : Nat) : List (List F) → List (List Nat) × Nat
  | [] => ([], base)
  | xs :: rest =>
      let t := allocSeq base xs.length
      let p := allocNested (base + xs.length) rest
      (t :: p.1, p.2)

/-- `PartialWitness`: an association list from targets to field values. -/
abbrev Witness (F : Type) := List (Nat × F)

/-- First-match lookup in a witness. -/
def wlookup {F : Type} : Witness F → Nat → Option F
  | [], _ => none
  | p :: w, t => if p.1 = t then some p.2 else wlookup w t

/-- `set_hash_target`: the four assignments of a hash target. -/
def hashSeg {F : Type} (base : Nat) (h : HashOut F) : Witness F :=
  [(base, h.a), (base + 1, h.b), (base + 2, h.c), (base + 3, h.d)]

/-- `set_cap_target`: assignments for a Merkle-cap target (plain `zip`). -/
def capSegs {F : Type} (bases : List Nat) (caps : List (HashOut F)) : Witness F :=
  ((bases.zip caps).map (fun p => hashSeg p.1 p.2)).flatten

/-- The opaque proving backend (plonky2): native hashes, the digest and cap
produced by `CircuitBuilder::build`, the prover's success predicate, the
FRI cap height of `standard_recursion_zk_config`, `CircuitData::verify`,
and `MerkleTree::new(leaves, 0).cap[0]`. -/
structure Backend (F : Type) where
  poseidonNP : List F → HashOut F
  hashNoPad : List F → HashOut F
  buildDigest : BuilderState → HashOut F
  buildCap : BuilderState → List (HashOut F)
  proveOk : BuilderState → Witness F → Bool
  zkConfigCapHeight : Nat
  verifyProofData : ProofData F → Bool
  merkleCapZero : List (List F) → HashOut F

/-- The targets returned by `LeafCircuit::compile`. -/
structure LeafTargets where
  flatInputs : List Nat
  hashUserPI : Nat
  userVd : Nat
  selfVd : Nat
  circuitHashT : Nat
  proofPis : List Nat
  vdCapBases : List Nat
  vdDigest : Nat
deriving DecidableEq, Repr

/-- `LeafCircuit::compile`, allocation for allocation. Returns `.panic` when
the user proof declares fewer public inputs than the flattened input length
(the `public_inputs[i]` indexing then goes out of bounds); otherwise records
the two registered hash targets (`h_in` then `h_circ`), the hash gadgets,
the recursive-verification gadget, the `true == false` injection on arity
mismatch, and the elementwise input connections. -/
def LeafCircuit.compile {F : Type} (u : UserProof F) :
    PanicOr ZkError (BuilderState × LeafTargets) :=
  let L := (u.userPublicInputs.map List.length).sum
  let flat := (allocNested 0 u.userPublicInputs).1.flatten
  let hIn := L
  let sbIn := L + 4
  let uVd := L + 8
  let sVd := L + 12
  let hCirc := L + 16
  let sbCirc := L + 20
  let P := u.proofData.common.numPublicInputs
  let pis := allocSeq (L + 24) P
  let K := 2 ^ u.proofData.common.capHeight
  let capBs := allocCapBases (L + 24 + P) K
  let vdDig := L + 24 + P + 4 * K
  if L ≤ P then
    .ok
      ({ nextTarget := vdDig + 4
         publicInputs := hashEls hIn ++ hashEls hCirc
         constraints :=
           [Constraint.hashGadget sbIn flat,
            Constraint.connectHashes sbIn hIn,
            Constraint.hashGadget sbCirc (hashEls sVd ++ hashEls uVd),
            Constraint.connectHashes hCirc sbCirc,
            Constraint.verifyProofGadget (L + 24) vdDig u.proofData.common]
           ++ (if L ≠ P then [Constraint.unsat] else [])
           ++ (List.range L).map (fun i => Constraint.connect (L + 24 + i) (flat.getD i 0)) }
       , ⟨flat, hIn, uVd, sVd, hCirc, pis, capBs, vdDig⟩)
  else .panic

/-- `LeafCircuit::fill`. `selfDigest` is the cached `verifier_circuit_digest`
option; when it is `none` the function returns the digest-unset error (the
repository's message asks to compile the circuit again). Length-mismatched
`zip_eq`-style setters panic. The circuit hash written to the witness is the
native Poseidon hash of the self digest followed by the user's declared
circuit verifier digest. -/
def LeafCircuit.fill {F : Type} [Zero F] [DecidableEq F] (B : Backend F)
    (selfDigest : Option (HashOut F)) (u : UserProof F) (t : LeafTargets) :
    PanicOr ZkError (Witness F) :=
  if t.flatInputs.length = u.userPublicInputs.flatten.length then
    match selfDigest with
    | some d =>
        if t.proofPis.length = u.proofData.publicInputs.length then
          .ok (t.flatInputs.zip u.userPublicInputs.flatten ++
              (hashSeg t.hashUserPI (UserProof.inputHash B.poseidonNP u) ++
              (hashSeg t.userVd u.circuitVerifierDigest ++
              (hashSeg t.selfVd d ++
              (hashSeg t.circuitHashT
                  (hashOrNoop B.poseidonNP (d.elements ++ u.circuitVerifierDigest.elements)) ++
              (t.proofPis.zip u.proofData.publicInputs ++
              (capSegs t.vdCapBases u.proofData.verifierCap ++
               hashSeg t.vdDigest u.proofData.verifierDigest)))))))
        else .panic
    | none => .err ZkError.verifierDigestUnset
  else .panic

/-- `Provable::proof` for `LeafCircuit`: compile and build (caching the
digest), fill the witness with the cached digest, re-check the digest and
prove. The proof's public inputs are the witness values of the registered
public-input targets. -/
def LeafCircuit.proofOf {F : Type} [Zero F] [DecidableEq F] (B : Backend F)
    (u : UserProof F) : PanicOr ZkError (ProofData F) := do
  let st ← LeafCircuit.compile u
  let d := B.buildDigest st.1
  let w ← LeafCircuit.fill B (some d) u st.2
  if B.buildDigest st.1 ≠ d then .err ZkError.circuitDigestMismatch
  else if B.proveOk st.1 w then
    .ok { publicInputs := st.1.publicInputs.map (fun tg => (wlookup w tg).getD 0)
          verifierDigest := B.buildDigest st.1
          verifierCap := B.buildCap st.1
          common := ⟨st.1.publicInputs.length, B.zkConfigCapHeight⟩ }
  else .err ZkError.backendProveError

/-- `LeafProof<C, F, H, D>`. -/
structure LeafProof (F : Type) where
  hashUserPublicInputs : HashOut F
  userCircuitHash : HashOut F
  proofData : ProofData F
deriving DecidableEq, Repr

def LeafProof.circuitVerifierDigest {F : Type} (l : LeafProof F) : HashOut F :=
  l.proofData.verifierDigest

def LeafProof.inputHash {F : Type} (l : LeafProof F) : HashOut F := l.hashUserPublicInputs

/-- `LeafProof::circuit_hash`: the Poseidon hash-or-noop of the leaf
circuit's verifier digest followed by the user's declared circuit hash. -/
def LeafProof.circuitHash {F : Type} [Zero F] (poseidonNP : List F → HashOut F)
    (l : LeafProof F) : HashOut F :=
  hashOrNoop poseidonNP (l.circuitVerifierDigest.elements ++ l.userCircuitHash.elements)

/-- `LeafProof::new_from_user_proof`. -/
def LeafProof.new_from_user_proof {F : Type} [Zero F] [DecidableEq F] (B : Backend F)
    (u : UserProof F) : PanicOr ZkError (LeafProof F) := do
  let hUP := hashOrNoop B.poseidonNP u.userPublicInputs.flatten
  let uch := u.circuitHash
  let pd ← LeafCircuit.proofOf B u
  .ok ⟨hUP, uch, pd⟩

/-- The view of a child proof through the `Proof` capability trait, as read
by `NodeCircuit` and `NodeProof::new_from_children`. -/
structure ProofView (F : Type) where
  inputHash : HashOut F
  circuitHash : HashOut F
  proofData : ProofData F
deriving DecidableEq, Repr

def LeafProof.view {F : Type} [Zero F] (B : Backend F) (l : LeafProof F) : ProofView F :=
  ⟨l.inputHash, LeafProof.circuitHash B.poseidonNP l, l.proofData⟩

/-- `NodeProof<C, F, H, D>`. -/
structure NodeProof (F : Type) where
  proofData : ProofData F
  inputHash : HashOut F
  circuitHash : HashOut F
deriving DecidableEq, Repr

def NodeProof.view {F : Type} (n : NodeProof F) : ProofView F :=
  ⟨n.inputHash, n.circuitHash, n.proofData⟩

def NodeProof.circuitVerifierDigest {F : Type} (n : NodeProof F) : HashOut F :=
  n.proofData.verifierDigest

/-- The targets returned by `NodeCircuit::compile`. -/
structure NodeTargets where
  leftPis : List Nat
  rightPis : List Nat
  leftCapBases : List Nat
  leftVdDigest : Nat
  rightCapBases : List Nat
  rightVdDigest : Nat
  leftInT : Nat
  rightInT : Nat
  nodeInT : Nat
  leftCircT : Nat
  rightCircT : Nat
  selfVdT : Nat
  nodeCircT : Nat
deriving DecidableEq, Repr

/-- `NodeCircuit::compile`. Children with fewer than eight public inputs make
the `public_inputs[i]` connection loops go out of bounds, hence `.panic`.
The node's input hash target is registered first, then the node's circuit
hash target; the children's verifier-data digests are connected in-circuit. -/
def NodeCircuit.compile {F : Type} (l r : ProofView F) :
    PanicOr ZkError (BuilderState × NodeTargets) :=
  let PL := l.proofData.common.numPublicInputs
  let KL := 2 ^ l.proofData.common.capHeight
  let PR := r.proofData.common.numPublicInputs
  let KR := 2 ^ r.proofData.common.capHeight
  let leftPis := allocSeq 0 PL
  let leftCapB := allocCapBases PL KL
  let leftVdDig := PL + 4 * KL
  let c1 := PL + 4 * KL + 4
  let rightPis := allocSeq c1 PR
  let rightCapB := allocCapBases (c1 + PR) KR
  let rightVdDig := c1 + PR + 4 * KR
  let c2 := c1 + PR + 4 * KR + 4
  let lIn := c2
  let rIn := c2 + 4
  let nIn := c2 + 8
  let sbIn := c2 + 12
  let lCirc := c2 + 16
  let rCirc := c2 + 20
  let nCirc := c2 + 24
  let vN := c2 + 28
  let sbCirc := c2 + 32
  if 8 ≤ PL ∧ 8 ≤ PR then
    .ok
      ({ nextTarget := c2 + 36
         publicInputs := hashEls nIn ++ hashEls nCirc
         constraints :=
           [Constraint.verifyProofGadget 0 leftVdDig l.proofData.common,
            Constraint.verifyProofGadget c1 rightVdDig r.proofData.common,
            Constraint.hashGadget sbIn (hashEls lIn ++ hashEls rIn),
            Constraint.connectHashes nIn sbIn,
            Constraint.connectHashes leftVdDig rightVdDig,
            Constraint.hashGadget sbCirc (hashEls lCirc ++ hashEls vN ++ hashEls rCirc),
            Constraint.connectHashes nCirc sbCirc]
           ++ (if PL ≠ 8 then [Constraint.unsat] else [])
           ++ (List.range 4).map (fun i => Constraint.connect i (lIn + i))
           ++ (List.range 4).map (fun i => Constraint.connect (4 + i) (lCirc + i))
           ++ (if PR ≠ 8 then [Constraint.unsat] else [])
           ++ (List.range 4).map (fun i => Constraint.connect (c1 + i) (rIn + i))
           ++ (List.range 4).map (fun i => Constraint.connect (c1 + 4 + i) (rCirc + i)) }
       , ⟨leftPis, rightPis, leftCapB, leftVdDig, rightCapB, rightVdDig,
          lIn, rIn, nIn, lCirc, rCirc, vN, nCirc⟩)
  else .panic

/-- `NodeCircuit::fill`. When the cached self digest is `none`, the code
calls `Option::unwrap` on it, so the fill panics rather than returning an
error. The node's own output hashes in the witness are computed by
`NodeCircuit::evaluate`, which uses the native Poseidon hash. -/
def NodeCircuit.fill {F : Type} [Zero F] [DecidableEq F] (B : Backend F)
    (selfDigest : Option (HashOut F)) (l r : ProofView F) (t : NodeTargets) :
    PanicOr ZkError (Witness F) :=
  if t.leftPis.length = l.proofData.publicInputs.length then
    if t.rightPis.length = r.proofData.publicInputs.length then
      match selfDigest with
      | some d =>
          let nodeCircuitHash := hashOrNoop B.poseidonNP
            (l.circuitHash.elements ++ (d.elements ++ r.circuitHash.elements))
          let nodeInputHash := hashOrNoop B.poseidonNP
            (l.inputHash.elements ++ r.inputHash.elements)
          .ok (t.leftPis.zip l.proofData.publicInputs ++
              (t.rightPis.zip r.proofData.publicInputs ++
              (capSegs t.leftCapBases l.proofData.verifierCap ++
              (hashSeg t.leftVdDigest l.proofData.verifierDigest ++
              (capSegs t.rightCapBases r.proofData.verifierCap ++
              (hashSeg t.rightVdDigest r.proofData.verifierDigest ++
              (hashSeg t.leftCircT l.circuitHash ++
              (hashSeg t.rightCircT r.circuitHash ++
              (hashSeg t.leftInT l.inputHash ++
              (hashSeg t.rightInT r.inputHash ++
              (hashSeg t.selfVdT d ++
              (hashSeg t.nodeCircT nodeCircuitHash ++
               hashSeg t.nodeInT nodeInputHash))))))))))))
      | none => .panic
    else .panic
  else .panic

/-- `Provable::proof` for `NodeCircuit`. -/
def NodeCircuit.proofOf {F : Type} [Zero F] [DecidableEq F] (B : Backend F)
    (l r : ProofView F) : PanicOr ZkError (ProofData F) := do
  let st ← NodeCircuit.compile l r
  let d := B.buildDigest st.1
  let w ← NodeCircuit.fill B (some d) l r st.2
  if B.buildDigest st.1 ≠ d then .err ZkError.circuitDigestMismatch
  else if B.proveOk st.1 w then
    .ok { publicInputs := st.1.publicInputs.map (fun tg => (wlookup w tg).getD 0)
          verifierDigest := B.buildDigest st.1
          verifierCap := B.buildCap st.1
          common := ⟨st.1.publicInputs.length, B.zkConfigCapHeight⟩ }
  else .err ZkError.backendProveError

/-- `NodeProof::new_from_children`. The children's circuit verifier digests
are compared off-circuit first; on a mismatch the error is returned before
any node circuit is compiled or proved. The node's stored hashes are computed
with the configuration's generic hasher `H::hash_or_noop`. -/
def NodeProof.new_from_children {F : Type} [Zero F] [DecidableEq F] (B : Backend F)
    (l r : ProofView F) : PanicOr ZkError (NodeProof F) :=
  let inputHash := hashOrNoop B.hashNoPad (l.inputHash.elements ++ r.inputHash.elements)
  let lch := l.circuitHash
  let rch := r.circuitHash
  if l.proofData.verifierDigest ≠ r.proofData.verifierDigest then
    .err ZkError.siblingDigestMismatch
  else do
    let pd ← NodeCircuit.proofOf B l r
    let circuitHash := hashOrNoop B.hashNoPad
      (lch.elements ++ (pd.verifierDigest.elements ++ rch.elements))
    .ok ⟨pd, inputHash, circuitHash⟩

/-- `(start..stop).step_by(2)`. -/
def pairIndices (start stop : Nat) : List Nat :=
  (List.range ((stop - start + 1) / 2)).map (fun j => start + 2 * j)

/-- `collect::<Result<Vec<_>, _>>` over a list of tasks, with panics
propagated. -/
def mapPanic {ε α β : Type} (f : α → PanicOr ε β) : List α → PanicOr ε (List β)
  | [] => .ok []
  | x :: xs => do
      let y ← f x
      let ys ← mapPanic f xs
      .ok (y :: ys)

/-- `generate_node_proofs_from_leaves`: pair adjacent leaf proofs
`(i, i + 1)` for `i` ranging over the even indices below the leaf count. An
out-of-range `leaf_proofs[i + 1]` access panics. -/
def generate_node_proofs_from_leaves {F : Type} [Zero F] [DecidableEq F] (B : Backend F)
    (leaves : List (LeafProof F)) : PanicOr ZkError (List (NodeProof F)) :=
  mapPanic
    (fun i =>
      match leaves[i]?, leaves[i + 1]? with
      | some x, some y => NodeProof.new_from_children B (LeafProof.view B x) (LeafProof.view B y)
      | _, _ => .panic)
    (pairIndices 0 leaves.length)

/-- `generate_node_proofs_from_nodes` (the `zktree/src/utils.rs` version):
pair node proofs at the even offsets of `start_child_index..node_proofs_len`. -/
def generate_node_proofs_from_nodes {F : Type} [Zero F] [DecidableEq F] (B : Backend F)
    (nodes : List (NodeProof F)) (startChildIndex nodeProofsLen : Nat) :
    PanicOr ZkError (List (NodeProof F)) :=
  mapPanic
    (fun i =>
      match nodes[i]?, nodes[i + 1]? with
      | some x, some y => NodeProof.new_from_children B x.view y.view
      | _, _ => .panic)
    (pairIndices startChildIndex nodeProofsLen)

/-- `ZkTree<C, F, H, D>`. -/
structure ZkTree (F : Type) where
  userProofs : List (UserProof F)
  leafProofs : List (LeafProof F)
  nodeProofs : List (NodeProof F)
deriving DecidableEq, Repr

/-- Fuel-based floor base-two logarithm; with fuel at least `n` it computes
`usize::ilog2 n` for positive `n`. -/
def ilog2F : Nat → Nat → Nat
  | 0, _ => 0
  | fuel + 1, n => if 2 ≤ n then ilog2F fuel (n / 2) + 1 else 0

/-- `usize::ilog2` (the caller separately panics on zero input). -/
def ilog2 (n : Nat) : Nat := ilog2F n n

/-- The level loop of `ZkTree::new`: `for height in 0..zktree_height`
(the height list is `List.range hT`), with the `start_child_index` /
`node_proofs_len` bookkeeping of the source. -/
def ZkTree.buildLoop {F : Type} [Zero F] [DecidableEq F] (B : Backend F)
    (leaves : List (LeafProof F)) (hT : Nat) :
    List Nat → List (NodeProof F) → Nat → Nat → PanicOr ZkError (List (NodeProof F))
  | [], nodes, _, _ => .ok nodes
  | height :: rest, nodes, start, len =>
    if height = 0 then do
      let ns ← generate_node_proofs_from_leaves B leaves
      ZkTree.buildLoop B leaves hT rest (nodes ++ ns) start (nodes ++ ns).length
    else do
      let ns ← generate_node_proofs_from_nodes B nodes start len
      ZkTree.buildLoop B leaves hT rest (nodes ++ ns) len (len + 2 ^ (hT - height - 1))

/-- `ZkTree::new`. The length precondition is only a `debug_assert!`
(compiled out here). `usize::ilog2` panics on zero input. -/
def ZkTree.new {F : Type} [Zero F] [DecidableEq F] (B : Backend F)
    (userProofs : List (UserProof F)) : PanicOr ZkError (ZkTree F) :=
  if userProofs.length = 0 then .panic
  else do
    let hT := ilog2 userProofs.length
    let leafProofs ← mapPanic (LeafProof.new_from_user_proof B) userProofs
    let nodes ← ZkTree.buildLoop B leafProofs hT (List.range hT) [] 0 0
    .ok ⟨userProofs, leafProofs, nodes⟩

/-- `ZkTree::root`: the last node proof; `expect` panics when there is none. -/
def ZkTree.root {F : Type} (t : ZkTree F) : PanicOr ZkError (NodeProof F) :=
  match t.nodeProofs.getLast? with
  | some n => .ok n
  | none => .panic

/-- `ZkTree::verify`: backend-verify the root proof, then compare the height
zero Merkle cap over the concatenated user inputs with the root's input
hash. -/
def ZkTree.verify {F : Type} [DecidableEq F] (B : Backend F) (t : ZkTree F) :
    PanicOr ZkError Unit := do
  let root ← ZkTree.root t
  if B.verifyProofData root.proofData then
    if B.merkleCapZero (t.userProofs.map (fun u => u.userPublicInputs.flatten)) = root.inputHash
    then .ok ()
    else .err ZkError.inputCommitmentMismatch
  else .err ZkError.backendVerifyError

/-- One level of pairing over already built node proofs, used by the
level-by-level reference description of the driver: element `i` of the
result is built from elements `2 * i` and `2 * i + 1` of the input level. -/
def pairAllNodes {F : Type} [Zero F] [DecidableEq F] (B : Backend F)
    (xs : List (NodeProof F)) : PanicOr ZkError (List (NodeProof F)) :=
  mapPanic
    (fun i =>
      match xs[i]?, xs[i + 1]? with
      | some x, some y => NodeProof.new_from_children B x.view y.view
      | _, _ => .panic)
    (pairIndices 0 xs.length)

/-- Level-by-level reference structure for the node proofs of a tree, as the
specification describes the driver: the first level pairs adjacent leaf
proofs, and each following level pairs adjacent proofs `(2 i, 2 i + 1)` of
the preceding level. -/
inductive LevelChain {F : Type} [Zero F] [DecidableEq F] (B : Backend F)
    (leaves : List (LeafProof F)) : List (List (NodeProof F)) → Prop where
  | base : ∀ l0, generate_node_proofs_from_leaves B leaves = .ok l0 →
      LevelChain B leaves [l0]
  | step : ∀ ls lst nxt, LevelChain B leaves ls → ls.getLast? = some lst →
      pairAllNodes B lst = .ok nxt → LevelChain B leaves (ls ++ [nxt])

/-- Concrete backend over `Nat` used to evaluate the model on closed inputs. -/
def B0 : Backend Nat where
  poseidonNP := fun xs => ⟨xs.sum, xs.length, 0, 0⟩
  hashNoPad := fun xs => ⟨xs.sum, xs.length, 0, 0⟩
  buildDigest := fun st => ⟨st.nextTarget, 0, 0, 0⟩
  buildCap := fun _ => []
  proveOk := fun _ _ => true
  zkConfigCapHeight := 0
  verifyProofData := fun _ => true
  merkleCapZero := fun _ => ⟨0, 0, 0, 0⟩

/-- A concrete user proof with one single-element input row. -/
def u0 : UserProof Nat where
  proofData := { publicInputs := [5], verifierDigest := ⟨1, 1, 1, 1⟩,
                 verifierCap := [], common := ⟨1, 0⟩ }
  inputs := [[5]]
  userCircuitHash := ⟨7, 7, 7, 7⟩

/-- A second user proof of the same shape as `u0`. -/
def u1 : UserProof Nat where
  proofData := { publicInputs := [6], verifierDigest := ⟨2, 2, 2, 2⟩,
                 verifierCap := [], common := ⟨1, 0⟩ }
  inputs := [[6]]
  userCircuitHash := ⟨8, 8, 8, 8⟩

def emptyProofData : ProofData Nat := ⟨[], ⟨0, 0, 0, 0⟩, [], ⟨0, 0⟩⟩

/-- The leaf proof built from `u0` (falls back to a dummy on failure). -/
def lp0 : LeafProof Nat :=
  match LeafProof.new_from_user_proof B0 u0 with
  | .ok lp => lp
  | _ => ⟨⟨0, 0, 0, 0⟩, ⟨0, 0, 0, 0⟩, emptyProofData⟩

/-- The leaf proof built from `u1` (falls back to a dummy on failure). -/
def lp1 : LeafProof Nat :=
  match LeafProof.new_from_user_proof B0 u1 with
  | .ok lp => lp
  | _ => ⟨⟨0, 0, 0, 0⟩, ⟨0, 0, 0, 0⟩, emptyProofData⟩

/-- The node proof built from the two concrete leaves. -/
def nd0 : NodeProof Nat :=
  match NodeProof.new_from_children B0 (LeafProof.view B0 lp0) (LeafProof.view B0 lp1) with
  | .ok nd => nd
  | _ => ⟨emptyProofData, ⟨0, 0, 0, 0⟩, ⟨0, 0, 0, 0⟩⟩

/-- The tree built from `[u0, u1]`. -/
def t2 : ZkTree Nat :=
  match ZkTree.new B0 [u0, u1] with
  | .ok t => t
  | _ => ⟨[], [], []⟩

/-- The tree returned for the length-one input `[u0]`. -/
def t1c : ZkTree Nat :=
  match ZkTree.new B0 [u0] with
  | .ok t => t
  | _ => ⟨[], [], []⟩

/-- Two proof views with distinct verifier digests (same shape otherwise). -/
def vA : ProofView Nat :=
  ⟨⟨1, 0, 0, 0⟩, ⟨2, 0, 0, 0⟩,
   ⟨[1, 0, 0, 0, 2, 0, 0, 0], ⟨3, 0, 0, 0⟩, [], ⟨8, 0⟩⟩⟩

def vBv : ProofView Nat :=
  ⟨⟨1, 0, 0, 0⟩, ⟨2, 0, 0, 0⟩,
   ⟨[1, 0, 0, 0, 2, 0, 0, 0], ⟨4, 0, 0, 0⟩, [], ⟨8, 0⟩⟩⟩

/-- Arbitrary node targets used to evaluate `NodeCircuit.fill` on a closed
input. -/
def nt0 : NodeTargets :=
  ⟨[], [], [], 0, [], 0, 0, 0, 0, 0, 0, 0, 0⟩

/-- The builder state and targets of the leaf circuit compiled for `u0`. -/
def lt0c : BuilderState × LeafTargets :=
  match LeafCircuit.compile u0 with
  | .ok st => st
  | _ => (⟨0, [], []⟩, ⟨[], 0, 0, 0, 0, [], [], 0⟩)

/-! ### Basic lemmas about the result monad and witness lookups -/

@[simp] theorem PanicOr.bind_ok {ε α β : Type} (a : α) (f : α → PanicOr ε β) :
    (PanicOr.ok a : PanicOr ε α) >>= f = f a := rfl

@[simp] theorem PanicOr.bind_err {ε α β : Type} (e : ε) (f : α → PanicOr ε β) :
    (PanicOr.err e : PanicOr ε α) >>= f = PanicOr.err e := rfl

@[simp] theorem PanicOr.bind_panic {ε α β : Type} (f : α → PanicOr ε β) :
    (PanicOr.panic : PanicOr ε α) >>= f = PanicOr.panic := rfl

@[simp] theorem PanicOr.pure_eq {ε α : Type} (a : α) :
    (pure a : PanicOr ε α) = PanicOr.ok a := rfl

@[simp] theorem wlookup_nil {F : Type} (t : Nat) : wlookup ([] : Witness F) t = none := rfl

theorem wlookup_cons {F : Type} (p : Nat × F) (w : Witness F) (t : Nat) :
    wlookup (p :: w) t = if p.1 = t then some p.2 else wlookup w t := rfl

theorem wlookup_append_of_ne {F : Type} {w₁ : Witness F} {t : Nat}
    (h : ∀ p ∈ w₁, p.1 ≠ t) (w₂ : Witness F) :
    wlookup (w₁ ++ w₂) t = wlookup w₂ t := by
  induction w₁ with
  | nil => simp
  | cons p w ih =>
      have hp : p.1 ≠ t := h p (by simp)
      simp only [List.cons_append, wlookup_cons, if_neg hp]
      exact ih (fun q hq => h q (by simp [hq]))

theorem mem_allocSeq {x base n : Nat} : x ∈ allocSeq base n ↔ base ≤ x ∧ x < base + n := by
  simp only [allocSeq, List.mem_map, List.mem_range]
  constructor
  · rintro ⟨i, hi, rfl⟩; omega
  · rintro ⟨h1, h2⟩; exact ⟨x - base, by omega, by omega⟩

theorem hashSeg_key_bound {F : Type} {p : Nat × F} {base : Nat} {h : HashOut F}
    (hp : p ∈ hashSeg base h) : base ≤ p.1 ∧ p.1 < base + 4 := by
  simp only [hashSeg, List.mem_cons, List.mem_singleton] at hp
  rcases hp with rfl | rfl | rfl | rfl | h' <;> first | omega | cases h'

theorem capSegs_key_bound {F : Type} {p : Nat × F} {base k : Nat} {caps : List (HashOut F)}
    (hp : p ∈ capSegs (allocCapBases base k) caps) : base ≤ p.1 ∧ p.1 < base + 4 * k := by
  simp only [capSegs, List.mem_flatten, List.mem_map] at hp
  obtain ⟨l, ⟨q, hq, rfl⟩, hpl⟩ := hp
  have hq1 : q.1 ∈ allocCapBases base k := (List.of_mem_zip hq).1
  simp only [allocCapBases, List.mem_map, List.mem_range] at hq1
  obtain ⟨i, hi, hqi⟩ := hq1
  have := hashSeg_key_bound hpl
  omega

theorem zip_key_lt {F : Type} {p : Nat × F} {base n : Nat} {vs : List F}
    (hp : p ∈ (allocSeq base n).zip vs) : base ≤ p.1 ∧ p.1 < base + n := by
  have : p.1 ∈ allocSeq base n := (List.of_mem_zip hp).1
  exact mem_allocSeq.mp this

theorem wlookup_hashSeg0 {F : Type} (b : Nat) (h : HashOut F) (w : Witness F) :
    wlookup (hashSeg b h ++ w) b = some h.a := by
  simp [hashSeg, wlookup_cons]

theorem wlookup_hashSeg1 {F : Type} (b : Nat) (h : HashOut F) (w : Witness F) :
    wlookup (hashSeg b h ++ w) (b + 1) = some h.b := by
  simp [hashSeg, wlookup_cons]

theorem wlookup_hashSeg2 {F : Type} (b : Nat) (h : HashOut F) (w : Witness F) :
    wlookup (hashSeg b h ++ w) (b + 2) = some h.c := by
  simp [hashSeg, wlookup_cons]

theorem wlookup_hashSeg3 {F : Type} (b : Nat) (h : HashOut F) (w : Witness F) :
    wlookup (hashSeg b h ++ w) (b + 3) = some h.d := by
  simp [hashSeg, wlookup_cons]

theorem allocNested_snd {F : Type} (base : Nat) (l : List (List F)) :
    (allocNested base l).2 = base + (l.map List.length).sum := by
  induction l generalizing base with
  | nil => simp [allocNested]
  | cons xs rest ih => simp [allocNested, ih]; omega

theorem allocSeq_append (b m n : Nat) :
    allocSeq b m ++ allocSeq (b + m) n = allocSeq b (m + n) := by
  simp only [allocSeq, List.range_add, List.map_append, List.map_map]
  congr 1
  apply List.map_congr_left
  intro i _
  simp only [Function.comp_apply]
  omega

theorem allocNested_flatten {F : Type} (base : Nat) (l : List (List F)) :
    (allocNested base l).1.flatten = allocSeq base ((l.map List.length).sum) := by
  induction l generalizing base with
  | nil => simp [allocNested, allocSeq]
  | cons xs rest ih =>
      simp only [allocNested, List.flatten_cons, ih, List.map_cons, List.sum_cons]
      exact allocSeq_append base xs.length ((rest.map List.length).sum)

/-! ### Claim theorems -/

/-- C2: for every pair of child proofs accepted by
`NodeProof::new_from_children`, the resulting node satisfies
`node.input_hash = H(left.input_hash ++ right.input_hash)` and
`node.circuit_hash = H(left.circuit_hash ++ V_N ++ right.circuit_hash)`,
where `V_N` is the verifier digest of the node circuit built for this node
(the verifier digest of the produced proof data) and `H` is the
configuration's algebraic hasher in hash-or-noop mode. -/
theorem claim_C2 {F : Type} [Zero F] [DecidableEq F] (B : Backend F) (l r : ProofView F)
    (nd : NodeProof F) (hok : NodeProof.new_from_children B l r = .ok nd) :
    nd.inputHash = hashOrNoop B.hashNoPad (l.inputHash.elements ++ r.inputHash.elements) ∧
    nd.circuitHash = hashOrNoop B.hashNoPad
      (l.circuitHash.elements ++ (nd.proofData.verifierDigest.elements ++
        r.circuitHash.elements)) := by
  unfold NodeProof.new_from_children at hok
  split at hok
  · exact absurd hok (by simp)
  · rcases hpd : NodeCircuit.proofOf B l r with _ | e | pd <;> rw [hpd] at hok
    · exact absurd hok (by simp)
    · exact absurd hok (by simp)
    · simp only [PanicOr.bind_ok, PanicOr.ok.injEq] at hok
      subst hok
      exact ⟨rfl, rfl⟩

/-- Witness for C2 at a concrete pair of leaf proofs. -/
theorem claim_C2_witness :
    NodeProof.new_from_children B0 (LeafProof.view B0 lp0) (LeafProof.view B0 lp1) = .ok nd0 ∧
    (nd0.inputHash = hashOrNoop B0.hashNoPad
        ((LeafProof.view B0 lp0).inputHash.elements ++
          (LeafProof.view B0 lp1).inputHash.elements) ∧
     nd0.circuitHash = hashOrNoop B0.hashNoPad
        ((LeafProof.view B0 lp0).circuitHash.elements ++
          (nd0.proofData.verifierDigest.elements ++
            (LeafProof.view B0 lp1).circuitHash.elements))) :=
  ⟨by decide, claim_C2 B0 _ _ nd0 (by decide)⟩

/-- C3: for every leaf proof built from a user proof, the stored input hash
is the Poseidon hash-or-noop of the flattened user inputs, and the circuit
hash is the Poseidon hash-or-noop of the leaf circuit's own verifier digest
followed by the user's declared circuit hash, in that order. -/
theorem claim_C3 {F : Type} [Zero F] [DecidableEq F] (B : Backend F) (u : UserProof F)
    (lp : LeafProof F) (hok : LeafProof.new_from_user_proof B u = .ok lp) :
    lp.inputHash = hashOrNoop B.poseidonNP u.inputs.flatten ∧
    LeafProof.circuitHash B.poseidonNP lp =
      hashOrNoop B.poseidonNP
        (lp.circuitVerifierDigest.elements ++ u.userCircuitHash.elements) := by
  unfold LeafProof.new_from_user_proof at hok
  rcases hpd : LeafCircuit.proofOf B u with _ | e | pd <;> rw [hpd] at hok
  · exact absurd hok (by simp)
  · exact absurd hok (by simp)
  · simp only [PanicOr.bind_ok, PanicOr.ok.injEq] at hok
    subst hok
    exact ⟨rfl, rfl⟩

/-- Witness for C3 at the concrete user proof `u0`. -/
theorem claim_C3_witness :
    LeafProof.new_from_user_proof B0 u0 = .ok lp0 ∧
    (lp0.inputHash = hashOrNoop B0.poseidonNP u0.inputs.flatten ∧
     LeafProof.circuitHash B0.poseidonNP lp0 =
       hashOrNoop B0.poseidonNP
         (lp0.circuitVerifierDigest.elements ++ u0.userCircuitHash.elements)) :=
  ⟨by decide, claim_C3 B0 u0 lp0 (by decide)⟩

/-- C6: a sibling verifier-digest mismatch is rejected off-circuit with
`SiblingDigestMismatch` for every backend, so before any node compilation
or proving is attempted; consequently every constructed node has children
with equal digests; and the node circuit also records the in-circuit
constraint connecting the two children's verifier-data digest targets. -/
theorem claim_C6 {F : Type} [Zero F] [DecidableEq F] :
    (∀ (B : Backend F) (l r : ProofView F),
       l.proofData.verifierDigest ≠ r.proofData.verifierDigest →
       NodeProof.new_from_children B l r = .err ZkError.siblingDigestMismatch) ∧
    (∀ (B : Backend F) (l r : ProofView F) (nd : NodeProof F),
       NodeProof.new_from_children B l r = .ok nd →
       l.proofData.verifierDigest = r.proofData.verifierDigest) ∧
    (∀ (l r : ProofView F) (st : BuilderState × NodeTargets),
       NodeCircuit.compile l r = .ok st →
       Constraint.connectHashes st.2.leftVdDigest st.2.rightVdDigest ∈ st.1.constraints) := by
  refine ⟨?_, ?_, ?_⟩
  · intro B l r hne
    unfold NodeProof.new_from_children
    rw [if_pos hne]
  · intro B l r nd hok
    by_contra hne
    rw [NodeProof.new_from_children, if_pos hne] at hok
    exact absurd hok (by simp)
  · intro l r st hok
    simp only [NodeCircuit.compile] at hok
    split at hok
    · simp only [PanicOr.ok.injEq] at hok
      subst hok
      simp
    · exact absurd hok (by simp)

/-- Witness for C6: the mismatch branch at two concrete views with unequal
digests, the equal-digest consequence at the concrete built node, and the
in-circuit constraint at the concrete compiled node circuit. -/
theorem claim_C6_witness :
    vA.proofData.verifierDigest ≠ vBv.proofData.verifierDigest ∧
    NodeProof.new_from_children B0 vA vBv = .err ZkError.siblingDigestMismatch :=
  ⟨by decide, claim_C6.1 B0 vA vBv (by decide)⟩

/-- C7 counterexample: `NodeCircuit::fill` with the cached digest unset does
not return a `VerifierDigestUnset` error; it panics (the code unwraps the
`None`), refuting the claim for the node circuit. -/
theorem claim_C7_counterexample :
    NodeCircuit.fill B0 none vA vA nt0 = .panic := by decide

/-- C7 (amended): with the cached self verifier digest unset, the leaf
circuit's `fill` (on the targets produced by its own `compile`) returns the
digest-unset error, while the node circuit's `fill` panics on the `unwrap`
of the unset digest instead of returning an error. -/
theorem claim_C7 :
    (∀ {F : Type} [Zero F] [DecidableEq F] (B : Backend F) (u : UserProof F)
       (st : BuilderState × LeafTargets),
       LeafCircuit.compile u = .ok st →
       LeafCircuit.fill B none u st.2 = .err ZkError.verifierDigestUnset) ∧
    (∀ {F : Type} [Zero F] [DecidableEq F] (B : Backend F) (l r : ProofView F)
       (t : NodeTargets),
       NodeCircuit.fill B none l r t = .panic) := by
  constructor
  · intro F _ _ B u st hok
    simp only [LeafCircuit.compile] at hok
    split at hok
    · simp only [PanicOr.ok.injEq] at hok
      subst hok
      unfold LeafCircuit.fill
      rw [if_pos]
      simp only [allocNested_flatten, allocSeq, List.length_map, List.length_range,
        List.length_flatten]
    · exact absurd hok (by simp)
  · intro F _ _ B l r t
    unfold NodeCircuit.fill
    split
    · split
      · rfl
      · rfl
    · rfl

/-- Witness for C7 at the concrete user proof `u0` and its compiled targets. -/
theorem claim_C7_witness :
    LeafCircuit.compile u0 = .ok lt0c ∧
    (LeafCircuit.fill B0 none u0 lt0c.2 = .err ZkError.verifierDigestUnset ∧
     NodeCircuit.fill B0 none vA vA nt0 = .panic) :=
  ⟨by decide, claim_C7.1 B0 u0 lt0c (by decide), claim_C7.2 B0 vA vA nt0⟩

/-- C5 counterexample: `ZkTree::new` on a length-one input does not return
an error at all (the length precondition is only a `debug_assert!`): on the
concrete input `[u0]` it returns `Ok` with an empty node-proof vector. -/
theorem claim_C5_counterexample :
    ZkTree.new B0 [u0] = .ok t1c ∧ t1c.nodeProofs = [] := by
  constructor <;> decide

/-- C5 (amended): `ZkTree::new` performs no shape check (only a
`debug_assert!`, absent in release builds): whenever leaf proving succeeds,
a length-one input returns `Ok` with an empty node-proof vector, and a
length-three input panics with an out-of-range index during level-zero
pairing; no shape error is ever returned. -/
theorem claim_C5 :
    (∀ {F : Type} [Zero F] [DecidableEq F] (B : Backend F) (u : UserProof F)
       (lp : LeafProof F),
       LeafProof.new_from_user_proof B u = .ok lp →
       ZkTree.new B [u] = .ok ⟨[u], [lp], []⟩) ∧
    (∀ {F : Type} [Zero F] [DecidableEq F] (B : Backend F) (u v w : UserProof F)
       (l1 l2 l3 : LeafProof F) (nd : NodeProof F),
       LeafProof.new_from_user_proof B u = .ok l1 →
       LeafProof.new_from_user_proof B v = .ok l2 →
       LeafProof.new_from_user_proof B w = .ok l3 →
       NodeProof.new_from_children B (LeafProof.view B l1) (LeafProof.view B l2) = .ok nd →
       ZkTree.new B [u, v, w] = .panic) := by
  constructor
  · intro F _ _ B u lp hok
    have h1 : ilog2 1 = 0 := rfl
    simp [ZkTree.new, mapPanic, hok, h1, ZkTree.buildLoop]
  · intro F _ _ B u v w l1 l2 l3 nd h1 h2 h3 hn
    have hl : ilog2 3 = 1 := rfl
    have hpi : pairIndices 0 3 = [0, 2] := rfl
    simp [ZkTree.new, mapPanic, h1, h2, h3, hl, ZkTree.buildLoop,
      generate_node_proofs_from_leaves, hpi, hn]

/-- Witness for C5 at concrete inputs of lengths one and three. -/
theorem claim_C5_witness :
    (LeafProof.new_from_user_proof B0 u0 = .ok lp0 ∧
     LeafProof.new_from_user_proof B0 u1 = .ok lp1 ∧
     NodeProof.new_from_children B0 (LeafProof.view B0 lp0) (LeafProof.view B0 lp1) = .ok nd0) ∧
    (ZkTree.new B0 [u0] = .ok ⟨[u0], [lp0], []⟩ ∧
     ZkTree.new B0 [u0, u1, u0] = .panic) :=
  ⟨⟨by decide, by decide, by decide⟩,
   claim_C5.1 B0 u0 lp0 (by decide),
   claim_C5.2 B0 u0 u1 u0 lp0 lp1 lp0 nd0 (by decide) (by decide) (by decide) (by decide)⟩

/-- C1: `ZkTree::verify` succeeds exactly when the backend verification of
the root proof succeeds and the height-zero Merkle cap over the flattened
user inputs equals the root's input hash; when the root verifies but the cap
differs, the result is the input-commitment-mismatch error. -/
theorem claim_C1 {F : Type} [DecidableEq F] (B : Backend F) (t : ZkTree F) (r : NodeProof F)
    (hr : t.nodeProofs.getLast? = some r) :
    (ZkTree.verify B t = .ok () ↔
      (B.verifyProofData r.proofData = true ∧
       B.merkleCapZero (t.userProofs.map (fun u => u.userPublicInputs.flatten)) =
         r.inputHash)) ∧
    (B.verifyProofData r.proofData = true →
     B.merkleCapZero (t.userProofs.map (fun u => u.userPublicInputs.flatten)) ≠ r.inputHash →
     ZkTree.verify B t = .err ZkError.inputCommitmentMismatch) := by
  unfold ZkTree.verify ZkTree.root
  rw [hr]
  simp only [PanicOr.bind_ok]
  constructor
  · constructor
    · intro h
      by_cases hv : B.verifyProofData r.proofData
      · rw [if_pos hv] at h
        by_cases hm : B.merkleCapZero (t.userProofs.map fun u => u.userPublicInputs.flatten) =
            r.inputHash
        · exact ⟨hv, hm⟩
        · rw [if_neg hm] at h
          exact absurd h (by simp)
      · rw [if_neg hv] at h
        exact absurd h (by simp)
    · rintro ⟨hv, hm⟩
      rw [if_pos hv, if_pos hm]
  · intro hv hm
    rw [if_pos hv, if_neg hm]

/-- Witness for C1 at the concrete two-leaf tree. -/
theorem claim_C1_witness :
    t2.nodeProofs.getLast? = some nd0 ∧
    ((ZkTree.verify B0 t2 = .ok () ↔
       (B0.verifyProofData nd0.proofData = true ∧
        B0.merkleCapZero (t2.userProofs.map (fun u => u.userPublicInputs.flatten)) =
          nd0.inputHash)) ∧
     (B0.verifyProofData nd0.proofData = true →
      B0.merkleCapZero (t2.userProofs.map (fun u => u.userPublicInputs.flatten)) ≠
        nd0.inputHash →
      ZkTree.verify B0 t2 = .err ZkError.inputCommitmentMismatch)) :=
  ⟨by decide, claim_C1 B0 t2 nd0 (by decide)⟩

/-- C10: `UserProof::input_hash` is the concrete Poseidon hash applied in
hash-or-noop mode to the flattened nested inputs; the leaf pipeline is
independent of the configuration's generic hasher (replacing it changes
nothing), and leaf construction stores exactly that Poseidon input hash. -/
theorem claim_C10 :
    (∀ {F : Type} [Zero F] [DecidableEq F] (B : Backend F) (u : UserProof F),
       UserProof.inputHash B.poseidonNP u = hashOrNoop B.poseidonNP u.inputs.flatten) ∧
    (∀ {F : Type} [Zero F] [DecidableEq F] (B : Backend F) (g : List F → HashOut F)
       (u : UserProof F),
       LeafProof.new_from_user_proof { B with hashNoPad := g } u =
         LeafProof.new_from_user_proof B u) ∧
    (∀ {F : Type} [Zero F] [DecidableEq F] (B : Backend F) (u : UserProof F)
       (lp : LeafProof F),
       LeafProof.new_from_user_proof B u = .ok lp →
       lp.hashUserPublicInputs = UserProof.inputHash B.poseidonNP u) := by
  refine ⟨?_, ?_, ?_⟩
  · intro F _ _ B u
    rfl
  · intro F _ _ B g u
    rfl
  · intro F _ _ B u lp hok
    unfold LeafProof.new_from_user_proof at hok
    rcases hpd : LeafCircuit.proofOf B u with _ | e | pd <;> rw [hpd] at hok
    · exact absurd hok (by simp)
    · exact absurd hok (by simp)
    · simp only [PanicOr.bind_ok, PanicOr.ok.injEq] at hok
      subst hok
      rfl

/-- Witness for C10 at the concrete user proof `u0`. -/
theorem claim_C10_witness :
    LeafProof.new_from_user_proof B0 u0 = .ok lp0 ∧
    lp0.hashUserPublicInputs = UserProof.inputHash B0.poseidonNP u0 :=
  ⟨by decide, claim_C10.2.2 B0 u0 lp0 (by decide)⟩

theorem wlookup_hashSeg0n {F : Type} (b : Nat) (h : HashOut F) :
    wlookup (hashSeg b h) b = some h.a := by
  simpa using wlookup_hashSeg0 b h []

theorem wlookup_hashSeg1n {F : Type} (b : Nat) (h : HashOut F) :
    wlookup (hashSeg b h) (b + 1) = some h.b := by
  simpa using wlookup_hashSeg1 b h []

theorem wlookup_hashSeg2n {F : Type} (b : Nat) (h : HashOut F) :
    wlookup (hashSeg b h) (b + 2) = some h.c := by
  simpa using wlookup_hashSeg2 b h []

theorem wlookup_hashSeg3n {F : Type} (b : Nat) (h : HashOut F) :
    wlookup (hashSeg b h) (b + 3) = some h.d := by
  simpa using wlookup_hashSeg3 b h []

/-- The registered public inputs of a successfully proved leaf circuit are
the witnessed user-input hash followed by the witnessed leaf circuit hash. -/
theorem leafCircuit_proofOf_publicInputs {F : Type} [Zero F] [DecidableEq F] (B : Backend F)
    (u : UserProof F) (pd : ProofData F) (hok : LeafCircuit.proofOf B u = .ok pd) :
    pd.publicInputs = (UserProof.inputHash B.poseidonNP u).elements ++
      (hashOrNoop B.poseidonNP (pd.verifierDigest.elements ++
        u.circuitVerifierDigest.elements)).elements := by
  unfold LeafCircuit.proofOf at hok
  rcases hcomp : LeafCircuit.compile u with _ | e | st <;> rw [hcomp] at hok
  · exact absurd hok (by simp)
  · exact absurd hok (by simp)
  simp only [PanicOr.bind_ok] at hok
  simp only [LeafCircuit.compile] at hcomp
  split at hcomp
  case isFalse => exact absurd hcomp (by simp)
  case isTrue hLP =>
  simp only [PanicOr.ok.injEq] at hcomp
  have hpub : st.1.publicInputs =
      hashEls ((u.userPublicInputs.map List.length).sum) ++
        hashEls ((u.userPublicInputs.map List.length).sum + 16) := by
    rw [← hcomp]
  have htgt : st.2 = ⟨(allocNested 0 u.userPublicInputs).1.flatten,
      (u.userPublicInputs.map List.length).sum,
      (u.userPublicInputs.map List.length).sum + 8,
      (u.userPublicInputs.map List.length).sum + 12,
      (u.userPublicInputs.map List.length).sum + 16,
      allocSeq ((u.userPublicInputs.map List.length).sum + 24)
        u.proofData.common.numPublicInputs,
      allocCapBases ((u.userPublicInputs.map List.length).sum + 24 +
        u.proofData.common.numPublicInputs) (2 ^ u.proofData.common.capHeight),
      (u.userPublicInputs.map List.length).sum + 24 +
        u.proofData.common.numPublicInputs + 4 * 2 ^ u.proofData.common.capHeight⟩ := by
    rw [← hcomp]
  rw [htgt] at hok
  simp only [LeafCircuit.fill] at hok
  split at hok
  case isFalse => exact absurd hok (by simp)
  case isTrue hg1 =>
  split at hok
  case isFalse => exact absurd hok (by simp)
  case isTrue hg2 =>
  simp only [PanicOr.bind_ok] at hok
  rw [if_neg (by simp)] at hok
  split at hok
  case isFalse => exact absurd hok (by simp)
  case isTrue hprove =>
  simp only [PanicOr.ok.injEq] at hok
  subst hok
  dsimp only
  rw [hpub, allocNested_flatten]
  set S := (u.userPublicInputs.map List.length).sum with hS
  have skipz : ∀ (tgt : Nat), S ≤ tgt → ∀ (rest : Witness F),
      wlookup ((allocSeq 0 S).zip u.userPublicInputs.flatten ++ rest) tgt =
        wlookup rest tgt := by
    intro tgt htgt rest
    exact wlookup_append_of_ne (fun p hp => by have := zip_key_lt hp; omega) rest
  have skipseg : ∀ (b tgt : Nat), (tgt < b ∨ b + 4 ≤ tgt) →
      ∀ (h : HashOut F) (rest : Witness F),
      wlookup (hashSeg b h ++ rest) tgt = wlookup rest tgt := by
    intro b tgt htgt h rest
    exact wlookup_append_of_ne (fun p hp => by have := hashSeg_key_bound hp; omega) rest
  simp only [hashEls, HashOut.elements, List.map_cons, List.map_nil, List.cons_append,
    List.nil_append]
  rw [skipz S (by omega), skipz (S + 1) (by omega), skipz (S + 2) (by omega),
    skipz (S + 3) (by omega), skipz (S + 16) (by omega), skipz (S + 16 + 1) (by omega),
    skipz (S + 16 + 2) (by omega), skipz (S + 16 + 3) (by omega)]
  rw [wlookup_hashSeg0, wlookup_hashSeg1, wlookup_hashSeg2, wlookup_hashSeg3]
  rw [skipseg S (S + 16) (by omega), skipseg S (S + 16 + 1) (by omega),
    skipseg S (S + 16 + 2) (by omega), skipseg S (S + 16 + 3) (by omega)]
  rw [skipseg (S + 8) (S + 16) (by omega), skipseg (S + 8) (S + 16 + 1) (by omega),
    skipseg (S + 8) (S + 16 + 2) (by omega), skipseg (S + 8) (S + 16 + 3) (by omega)]
  rw [skipseg (S + 12) (S + 16) (by omega), skipseg (S + 12) (S + 16 + 1) (by omega),
    skipseg (S + 12) (S + 16 + 2) (by omega), skipseg (S + 12) (S + 16 + 3) (by omega)]
  rw [wlookup_hashSeg0, wlookup_hashSeg1, wlookup_hashSeg2, wlookup_hashSeg3]
  simp

/-- The registered public inputs of a successfully proved node circuit are
the witnessed node input hash followed by the witnessed node circuit hash
(both computed natively with Poseidon by `NodeCircuit::evaluate`). -/
theorem nodeCircuit_proofOf_publicInputs {F : Type} [Zero F] [DecidableEq F] (B : Backend F)
    (l r : ProofView F) (pd : ProofData F) (hok : NodeCircuit.proofOf B l r = .ok pd) :
    pd.publicInputs =
      (hashOrNoop B.poseidonNP (l.inputHash.elements ++ r.inputHash.elements)).elements ++
      (hashOrNoop B.poseidonNP (l.circuitHash.elements ++ (pd.verifierDigest.elements ++
        r.circuitHash.elements))).elements := by
  unfold NodeCircuit.proofOf at hok
  rcases hcomp : NodeCircuit.compile l r with _ | e | st <;> rw [hcomp] at hok
  · exact absurd hok (by simp)
  · exact absurd hok (by simp)
  simp only [PanicOr.bind_ok] at hok
  simp only [NodeCircuit.compile] at hcomp
  split at hcomp
  case isFalse => exact absurd hcomp (by simp)
  case isTrue h8 =>
  simp only [PanicOr.ok.injEq] at hcomp
  have hpub : st.1.publicInputs =
      hashEls (l.proofData.common.numPublicInputs + 4 * 2 ^ l.proofData.common.capHeight + 4 +
        r.proofData.common.numPublicInputs + 4 * 2 ^ r.proofData.common.capHeight + 4 + 8) ++
      hashEls (l.proofData.common.numPublicInputs + 4 * 2 ^ l.proofData.common.capHeight + 4 +
        r.proofData.common.numPublicInputs + 4 * 2 ^ r.proofData.common.capHeight + 4 + 24) := by
    rw [← hcomp]
  have htgt : st.2 =
      ⟨allocSeq 0 l.proofData.common.numPublicInputs,
       allocSeq (l.proofData.common.numPublicInputs +
         4 * 2 ^ l.proofData.common.capHeight + 4) r.proofData.common.numPublicInputs,
       allocCapBases l.proofData.common.numPublicInputs (2 ^ l.proofData.common.capHeight),
       l.proofData.common.numPublicInputs + 4 * 2 ^ l.proofData.common.capHeight,
       allocCapBases (l.proofData.common.numPublicInputs +
         4 * 2 ^ l.proofData.common.capHeight + 4 + r.proofData.common.numPublicInputs)
         (2 ^ r.proofData.common.capHeight),
       l.proofData.common.numPublicInputs + 4 * 2 ^ l.proofData.common.capHeight + 4 +
         r.proofData.common.numPublicInputs + 4 * 2 ^ r.proofData.common.capHeight,
       l.proofData.common.numPublicInputs + 4 * 2 ^ l.proofData.common.capHeight + 4 +
         r.proofData.common.numPublicInputs + 4 * 2 ^ r.proofData.common.capHeight + 4,
       l.proofData.common.numPublicInputs + 4 * 2 ^ l.proofData.common.capHeight + 4 +
         r.proofData.common.numPublicInputs + 4 * 2 ^ r.proofData.common.capHeight + 4 + 4,
       l.proofData.common.numPublicInputs + 4 * 2 ^ l.proofData.common.capHeight + 4 +
         r.proofData.common.numPublicInputs + 4 * 2 ^ r.proofData.common.capHeight + 4 + 8,
       l.proofData.common.numPublicInputs + 4 * 2 ^ l.proofData.common.capHeight + 4 +
         r.proofData.common.numPublicInputs + 4 * 2 ^ r.proofData.common.capHeight + 4 + 16,
       l.proofData.common.numPublicInputs + 4 * 2 ^ l.proofData.common.capHeight + 4 +
         r.proofData.common.numPublicInputs + 4 * 2 ^ r.proofData.common.capHeight + 4 + 20,
       l.proofData.common.numPublicInputs + 4 * 2 ^ l.proofData.common.capHeight + 4 +
         r.proofData.common.numPublicInputs + 4 * 2 ^ r.proofData.common.capHeight + 4 + 28,
       l.proofData.common.numPublicInputs + 4 * 2 ^ l.proofData.common.capHeight + 4 +
         r.proofData.common.numPublicInputs + 4 * 2 ^ r.proofData.common.capHeight + 4 + 24⟩ := by
    rw [← hcomp]
  rw [htgt] at hok
  simp only [NodeCircuit.fill] at hok
  split at hok
  case isFalse => exact absurd hok (by simp)
  case isTrue hg1 =>
  split at hok
  case isFalse => exact absurd hok (by simp)
  case isTrue hg2 =>
  simp only [PanicOr.bind_ok] at hok
  rw [if_neg (by simp)] at hok
  split at hok
  case isFalse => exact absurd hok (by simp)
  case isTrue hprove =>
  simp only [PanicOr.ok.injEq] at hok
  subst hok
  dsimp only
  rw [hpub]
  set PL := l.proofData.common.numPublicInputs with hPL
  set KL := 2 ^ l.proofData.common.capHeight with hKL
  set PR := r.proofData.common.numPublicInputs with hPR
  set KR := 2 ^ r.proofData.common.capHeight with hKR
  set C1 := PL + 4 * KL + 4 with hC1
  set C2 := C1 + PR + 4 * KR + 4 with hC2
  have skipzip : ∀ (base n tgt : Nat), (tgt < base ∨ base + n ≤ tgt) →
      ∀ (vs : List F) (rest : Witness F),
      wlookup ((allocSeq base n).zip vs ++ rest) tgt = wlookup rest tgt := by
    intro base n tgt htgt vs rest
    exact wlookup_append_of_ne (fun p hp => by have := zip_key_lt hp; omega) rest
  have skipcap : ∀ (base k tgt : Nat), (tgt < base ∨ base + 4 * k ≤ tgt) →
      ∀ (caps : List (HashOut F)) (rest : Witness F),
      wlookup (capSegs (allocCapBases base k) caps ++ rest) tgt = wlookup rest tgt := by
    intro base k tgt htgt caps rest
    exact wlookup_append_of_ne (fun p hp => by have := capSegs_key_bound hp; omega) rest
  have skipseg : ∀ (b tgt : Nat), (tgt < b ∨ b + 4 ≤ tgt) →
      ∀ (h : HashOut F) (rest : Witness F),
      wlookup (hashSeg b h ++ rest) tgt = wlookup rest tgt := by
    intro b tgt htgt h rest
    exact wlookup_append_of_ne (fun p hp => by have := hashSeg_key_bound hp; omega) rest
  simp only [hashEls, HashOut.elements, List.map_cons, List.map_nil, List.cons_append,
    List.nil_append]
  rw [skipzip 0 PL (C2 + 8) (by omega), skipzip 0 PL (C2 + 8 + 1) (by omega),
    skipzip 0 PL (C2 + 8 + 2) (by omega), skipzip 0 PL (C2 + 8 + 3) (by omega),
    skipzip 0 PL (C2 + 24) (by omega), skipzip 0 PL (C2 + 24 + 1) (by omega),
    skipzip 0 PL (C2 + 24 + 2) (by omega), skipzip 0 PL (C2 + 24 + 3) (by omega)]
  rw [skipzip C1 PR (C2 + 8) (by omega), skipzip C1 PR (C2 + 8 + 1) (by omega),
    skipzip C1 PR (C2 + 8 + 2) (by omega), skipzip C1 PR (C2 + 8 + 3) (by omega),
    skipzip C1 PR (C2 + 24) (by omega), skipzip C1 PR (C2 + 24 + 1) (by omega),
    skipzip C1 PR (C2 + 24 + 2) (by omega), skipzip C1 PR (C2 + 24 + 3) (by omega)]
  rw [skipcap PL KL (C2 + 8) (by omega), skipcap PL KL (C2 + 8 + 1) (by omega),
    skipcap PL KL (C2 + 8 + 2) (by omega), skipcap PL KL (C2 + 8 + 3) (by omega),
    skipcap PL KL (C2 + 24) (by omega), skipcap PL KL (C2 + 24 + 1) (by omega),
    skipcap PL KL (C2 + 24 + 2) (by omega), skipcap PL KL (C2 + 24 + 3) (by omega)]
  rw [skipseg (PL + 4 * KL) (C2 + 8) (by omega), skipseg (PL + 4 * KL) (C2 + 8 + 1) (by omega),
    skipseg (PL + 4 * KL) (C2 + 8 + 2) (by omega),
    skipseg (PL + 4 * KL) (C2 + 8 + 3) (by omega),
    skipseg (PL + 4 * KL) (C2 + 24) (by omega), skipseg (PL + 4 * KL) (C2 + 24 + 1) (by omega),
    skipseg (PL + 4 * KL) (C2 + 24 + 2) (by omega),
    skipseg (PL + 4 * KL) (C2 + 24 + 3) (by omega)]
  rw [skipcap (C1 + PR) KR (C2 + 8) (by omega), skipcap (C1 + PR) KR (C2 + 8 + 1) (by omega),
    skipcap (C1 + PR) KR (C2 + 8 + 2) (by omega),
    skipcap (C1 + PR) KR (C2 + 8 + 3) (by omega),
    skipcap (C1 + PR) KR (C2 + 24) (by omega), skipcap (C1 + PR) KR (C2 + 24 + 1) (by omega),
    skipcap (C1 + PR) KR (C2 + 24 + 2) (by omega),
    skipcap (C1 + PR) KR (C2 + 24 + 3) (by omega)]
  rw [skipseg (C1 + PR + 4 * KR) (C2 + 8) (by omega),
    skipseg (C1 + PR + 4 * KR) (C2 + 8 + 1) (by omega),
    skipseg (C1 + PR + 4 * KR) (C2 + 8 + 2) (by omega),
    skipseg (C1 + PR + 4 * KR) (C2 + 8 + 3) (by omega),
    skipseg (C1 + PR + 4 * KR) (C2 + 24) (by omega),
    skipseg (C1 + PR + 4 * KR) (C2 + 24 + 1) (by omega),
    skipseg (C1 + PR + 4 * KR) (C2 + 24 + 2) (by omega),
    skipseg (C1 + PR + 4 * KR) (C2 + 24 + 3) (by omega)]
  rw [skipseg (C2 + 16) (C2 + 8) (by omega), skipseg (C2 + 16) (C2 + 8 + 1) (by omega),
    skipseg (C2 + 16) (C2 + 8 + 2) (by omega), skipseg (C2 + 16) (C2 + 8 + 3) (by omega),
    skipseg (C2 + 16) (C2 + 24) (by omega), skipseg (C2 + 16) (C2 + 24 + 1) (by omega),
    skipseg (C2 + 16) (C2 + 24 + 2) (by omega), skipseg (C2 + 16) (C2 + 24 + 3) (by omega)]
  rw [skipseg (C2 + 20) (C2 + 8) (by omega), skipseg (C2 + 20) (C2 + 8 + 1) (by omega),
    skipseg (C2 + 20) (C2 + 8 + 2) (by omega), skipseg (C2 + 20) (C2 + 8 + 3) (by omega),
    skipseg (C2 + 20) (C2 + 24) (by omega), skipseg (C2 + 20) (C2 + 24 + 1) (by omega),
    skipseg (C2 + 20) (C2 + 24 + 2) (by omega), skipseg (C2 + 20) (C2 + 24 + 3) (by omega)]
  rw [skipseg C2 (C2 + 8) (by omega), skipseg C2 (C2 + 8 + 1) (by omega),
    skipseg C2 (C2 + 8 + 2) (by omega), skipseg C2 (C2 + 8 + 3) (by omega),
    skipseg C2 (C2 + 24) (by omega), skipseg C2 (C2 + 24 + 1) (by omega),
    skipseg C2 (C2 + 24 + 2) (by omega), skipseg C2 (C2 + 24 + 3) (by omega)]
  rw [skipseg (C2 + 4) (C2 + 8) (by omega), skipseg (C2 + 4) (C2 + 8 + 1) (by omega),
    skipseg (C2 + 4) (C2 + 8 + 2) (by omega), skipseg (C2 + 4) (C2 + 8 + 3) (by omega),
    skipseg (C2 + 4) (C2 + 24) (by omega), skipseg (C2 + 4) (C2 + 24 + 1) (by omega),
    skipseg (C2 + 4) (C2 + 24 + 2) (by omega), skipseg (C2 + 4) (C2 + 24 + 3) (by omega)]
  rw [skipseg (C2 + 28) (C2 + 8) (by omega), skipseg (C2 + 28) (C2 + 8 + 1) (by omega),
    skipseg (C2 + 28) (C2 + 8 + 2) (by omega), skipseg (C2 + 28) (C2 + 8 + 3) (by omega),
    skipseg (C2 + 28) (C2 + 24) (by omega), skipseg (C2 + 28) (C2 + 24 + 1) (by omega),
    skipseg (C2 + 28) (C2 + 24 + 2) (by omega), skipseg (C2 + 28) (C2 + 24 + 3) (by omega)]
  rw [wlookup_hashSeg0, wlookup_hashSeg1, wlookup_hashSeg2, wlookup_hashSeg3]
  rw [skipseg (C2 + 24) (C2 + 8) (by omega), skipseg (C2 + 24) (C2 + 8 + 1) (by omega),
    skipseg (C2 + 24) (C2 + 8 + 2) (by omega), skipseg (C2 + 24) (C2 + 8 + 3) (by omega)]
  rw [wlookup_hashSeg0n, wlookup_hashSeg1n, wlookup_hashSeg2n, wlookup_hashSeg3n]
  simp

/-- C4: every leaf proof and (at the Poseidon-instantiated configuration,
the only one the repository uses) every node proof carries exactly eight
public inputs: the four elements of its input hash followed by the four
elements of its circuit hash. -/
theorem claim_C4 :
    (∀ {F : Type} [Zero F] [DecidableEq F] (B : Backend F) (u : UserProof F)
       (lp : LeafProof F),
       LeafProof.new_from_user_proof B u = .ok lp →
       lp.proofData.publicInputs =
         lp.inputHash.elements ++ (LeafProof.circuitHash B.poseidonNP lp).elements ∧
       lp.proofData.publicInputs.length = 8) ∧
    (∀ {F : Type} [Zero F] [DecidableEq F] (B : Backend F) (l r : ProofView F)
       (nd : NodeProof F),
       B.hashNoPad = B.poseidonNP →
       NodeProof.new_from_children B l r = .ok nd →
       nd.proofData.publicInputs = nd.inputHash.elements ++ nd.circuitHash.elements ∧
       nd.proofData.publicInputs.length = 8) := by
  constructor
  · intro F _ _ B u lp hok
    unfold LeafProof.new_from_user_proof at hok
    rcases hpd : LeafCircuit.proofOf B u with _ | e | pd <;> rw [hpd] at hok
    · exact absurd hok (by simp)
    · exact absurd hok (by simp)
    simp only [PanicOr.bind_ok, PanicOr.ok.injEq] at hok
    subst hok
    have h := leafCircuit_proofOf_publicInputs B u pd hpd
    refine ⟨h, ?_⟩
    show pd.publicInputs.length = 8
    rw [h]
    rfl
  · intro F _ _ B l r nd hB hok
    unfold NodeProof.new_from_children at hok
    split at hok
    · exact absurd hok (by simp)
    rcases hpd : NodeCircuit.proofOf B l r with _ | e | pd <;> rw [hpd] at hok
    · exact absurd hok (by simp)
    · exact absurd hok (by simp)
    simp only [PanicOr.bind_ok, PanicOr.ok.injEq] at hok
    subst hok
    have h := nodeCircuit_proofOf_publicInputs B l r pd hpd
    constructor
    · show pd.publicInputs =
        (hashOrNoop B.hashNoPad (l.inputHash.elements ++ r.inputHash.elements)).elements ++
        (hashOrNoop B.hashNoPad (l.circuitHash.elements ++ (pd.verifierDigest.elements ++
          r.circuitHash.elements))).elements
      rw [hB]
      exact h
    · show pd.publicInputs.length = 8
      rw [h]
      rfl

/-- Witness for C4 at the concrete leaf and node proofs. -/
theorem claim_C4_witness :
    (LeafProof.new_from_user_proof B0 u0 = .ok lp0 ∧
     NodeProof.new_from_children B0 (LeafProof.view B0 lp0) (LeafProof.view B0 lp1) = .ok nd0) ∧
    ((lp0.proofData.publicInputs =
        lp0.inputHash.elements ++ (LeafProof.circuitHash B0.poseidonNP lp0).elements ∧
      lp0.proofData.publicInputs.length = 8) ∧
     (nd0.proofData.publicInputs = nd0.inputHash.elements ++ nd0.circuitHash.elements ∧
      nd0.proofData.publicInputs.length = 8)) :=
  ⟨⟨by decide, by decide⟩, claim_C4.1 B0 u0 lp0 (by decide),
   claim_C4.2 B0 (LeafProof.view B0 lp0) (LeafProof.view B0 lp1) nd0 rfl (by decide)⟩

theorem mapPanic_ok_length {ε α β : Type} (f : α → PanicOr ε β) :
    ∀ (xs : List α) (ys : List β), mapPanic f xs = .ok ys → ys.length = xs.length := by
  intro xs
  induction xs with
  | nil => intro ys h; simp only [mapPanic, PanicOr.ok.injEq] at h; subst h; rfl
  | cons x xs ih =>
      intro ys h
      simp only [mapPanic] at h
      rcases hx : f x with _ | e | y <;> rw [hx] at h
      · exact absurd h (by simp)
      · exact absurd h (by simp)
      rcases hxs : mapPanic f xs with _ | e | ys' <;> rw [hxs] at h
      · exact absurd h (by simp)
      · exact absurd h (by simp)
      simp only [PanicOr.bind_ok, PanicOr.pure_eq, PanicOr.ok.injEq] at h
      subst h
      simp [ih ys' hxs]

theorem mapPanic_map {ε α β γ : Type} (f : β → PanicOr ε γ) (g : α → β) (l : List α) :
    mapPanic f (l.map g) = mapPanic (fun x => f (g x)) l := by
  induction l with
  | nil => rfl
  | cons x xs ih => simp only [List.map_cons, mapPanic, ih]

theorem mapPanic_congr {ε α β : Type} {f g : α → PanicOr ε β} {l : List α}
    (h : ∀ x ∈ l, f x = g x) : mapPanic f l = mapPanic g l := by
  induction l with
  | nil => rfl
  | cons x xs ih =>
      simp only [mapPanic, h x (by simp)]
      rw [ih (fun y hy => h y (by simp [hy]))]

theorem pairIndices_length (s m : Nat) :
    (pairIndices s m).length = (m - s + 1) / 2 := by
  simp [pairIndices]

/-- `generate_node_proofs_from_nodes` on the suffix starting at
`start_child_index` is exactly one pairing pass over that suffix. -/
theorem gen_eq_pairAll {F : Type} [Zero F] [DecidableEq F] (B : Backend F)
    (pre lst : List (NodeProof F)) :
    generate_node_proofs_from_nodes B (pre ++ lst) pre.length (pre.length + lst.length) =
      pairAllNodes B lst := by
  unfold generate_node_proofs_from_nodes pairAllNodes
  have hidx : pairIndices pre.length (pre.length + lst.length) =
      (pairIndices 0 lst.length).map (fun i => pre.length + i) := by
    unfold pairIndices
    simp only [Nat.sub_zero, List.map_map]
    have hm : pre.length + lst.length - pre.length = lst.length := by omega
    rw [hm]
    apply List.map_congr_left
    intro j hj
    simp only [Function.comp_apply]
    omega
  rw [hidx, mapPanic_map]
  apply mapPanic_congr
  intro i hi
  have h1 : (pre ++ lst)[pre.length + i]? = lst[i]? := by
    rw [List.getElem?_append_right (by omega)]
    congr 1
    omega
  have h2 : (pre ++ lst)[pre.length + i + 1]? = lst[i + 1]? := by
    rw [List.getElem?_append_right (by omega)]
    congr 1
    omega
  rw [h1, h2]

theorem pairAllNodes_ok_length {F : Type} [Zero F] [DecidableEq F] (B : Backend F)
    (xs ys : List (NodeProof F)) (h : pairAllNodes B xs = .ok ys) :
    ys.length = (xs.length + 1) / 2 := by
  have := mapPanic_ok_length _ _ _ h
  rwa [pairIndices_length, Nat.sub_zero] at this

theorem gfl_ok_length {F : Type} [Zero F] [DecidableEq F] (B : Backend F)
    (leaves : List (LeafProof F)) (ys : List (NodeProof F))
    (h : generate_node_proofs_from_leaves B leaves = .ok ys) :
    ys.length = (leaves.length + 1) / 2 := by
  have := mapPanic_ok_length _ _ _ h
  rwa [pairIndices_length, Nat.sub_zero] at this

theorem levelChain_ne_nil {F : Type} [Zero F] [DecidableEq F] {B : Backend F}
    {leaves : List (LeafProof F)} {ls : List (List (NodeProof F))}
    (h : LevelChain B leaves ls) : ls ≠ [] := by
  cases h <;> simp

theorem pow_level_sum : ∀ (h : Nat),
    ((List.range h).map (fun i => 2 ^ (h - 1 - i))).sum = 2 ^ h - 1 := by
  intro h
  induction h with
  | zero => rfl
  | succ k ih =>
      rw [List.range_succ_eq_map]
      simp only [List.map_cons, List.map_map, List.sum_cons]
      have hf : (List.range k).map ((fun i => 2 ^ (k + 1 - 1 - i)) ∘ Nat.succ) =
          (List.range k).map (fun i => 2 ^ (k - 1 - i)) := by
        apply List.map_congr_left
        intro j hj
        simp only [Function.comp_apply]
        congr 1
        omega
      rw [hf, ih]
      have h1 : 0 < 2 ^ k := Nat.two_pow_pos k
      have h2 : 2 ^ (k + 1) = 2 ^ k * 2 := pow_succ 2 k
      have h3 : k + 1 - 1 - 0 = k := by omega
      rw [h3]
      omega

theorem ilog2F_pow : ∀ (fuel h : Nat), 2 ^ h ≤ fuel → ilog2F fuel (2 ^ h) = h := by
  intro fuel
  induction fuel with
  | zero => intro h hh; have := Nat.two_pow_pos h; omega
  | succ m ih =>
      intro h hh
      cases h with
      | zero => rfl
      | succ k =>
          have h1 : 0 < 2 ^ k := Nat.two_pow_pos k
          have h2 : 2 ^ (k + 1) = 2 ^ k * 2 := pow_succ 2 k
          simp only [ilog2F]
          rw [if_pos (by omega)]
          have hdiv : 2 ^ (k + 1) / 2 = 2 ^ k := by omega
          rw [hdiv, ih k (by omega)]

theorem ilog2_pow (h : Nat) : ilog2 (2 ^ h) = h :=
  ilog2F_pow (2 ^ h) h le_rfl

/-- Invariant of the driver's level loop: entering the loop at `height ≥ 1`
with the flat node vector, start index and length describing an already
built chain of levels, a successful run extends the chain to `hT` levels
whose concatenation is the final node vector, level `i` holding
`2 ^ (hT - 1 - i)` node proofs. -/
theorem buildLoop_spec {F : Type} [Zero F] [DecidableEq F] (B : Backend F)
    (leaves : List (LeafProof F)) (hT : Nat) :
    ∀ (n height : Nat) (levels : List (List (NodeProof F))) (final : List (NodeProof F)),
      height + n = hT → 1 ≤ height →
      LevelChain B leaves levels → levels.length = height →
      (∀ (i : Nat) (hi : i < levels.length), levels[i].length = 2 ^ (hT - 1 - i)) →
      ZkTree.buildLoop B leaves hT (List.range' height n) levels.flatten
        levels.dropLast.flatten.length levels.flatten.length = .ok final →
      ∃ levels', LevelChain B leaves levels' ∧ levels'.length = hT ∧
        final = levels'.flatten ∧
        (∀ (i : Nat) (hi : i < levels'.length), levels'[i].length = 2 ^ (hT - 1 - i)) := by
  intro n
  induction n with
  | zero =>
      intro height levels final hhn h1 hchain hlen hsz hloop
      simp only [List.range', ZkTree.buildLoop, PanicOr.ok.injEq] at hloop
      exact ⟨levels, hchain, by omega, hloop.symm, hsz⟩
  | succ m ih =>
      intro height levels final hhn h1 hchain hlen hsz hloop
      rw [List.range'_succ] at hloop
      simp only [ZkTree.buildLoop] at hloop
      rw [if_neg (by omega)] at hloop
      have hne := levelChain_ne_nil hchain
      set lst := levels.getLast hne with hlst
      have heq : levels.dropLast ++ [lst] = levels := List.dropLast_append_getLast hne
      have hflat : levels.flatten = levels.dropLast.flatten ++ lst := by
        conv_lhs => rw [← heq]
        simp [List.flatten_append]
      have hlenflat : levels.flatten.length = levels.dropLast.flatten.length + lst.length := by
        rw [hflat]
        simp
      have hga : generate_node_proofs_from_nodes B levels.flatten
          levels.dropLast.flatten.length levels.flatten.length = pairAllNodes B lst := by
        conv_lhs => rw [hlenflat, hflat]
        exact gen_eq_pairAll B levels.dropLast.flatten lst
      rw [hga] at hloop
      rcases hpa : pairAllNodes B lst with _ | e | ns <;> rw [hpa] at hloop
      · exact absurd hloop (by simp)
      · exact absurd hloop (by simp)
      simp only [PanicOr.bind_ok] at hloop
      have hlstlen : lst.length = 2 ^ (hT - height) := by
        have hidx : levels.length - 1 < levels.length := by omega
        have hg : levels[levels.length - 1] = lst := by
          rw [hlst, List.getLast_eq_getElem]
        have := hsz (levels.length - 1) hidx
        rw [hg] at this
        rw [this, hlen]
        congr 1
        omega
      have hpow : 2 ^ (hT - height) = 2 * 2 ^ (hT - height - 1) := by
        have hx : hT - height = (hT - height - 1) + 1 := by omega
        conv_lhs => rw [hx]
        rw [pow_succ]
        ring
      have hnslen : ns.length = 2 ^ (hT - height - 1) := by
        have := pairAllNodes_ok_length B lst ns hpa
        rw [hlstlen] at this
        omega
      have hchain' : LevelChain B leaves (levels ++ [ns]) := by
        refine LevelChain.step levels lst ns hchain ?_ hpa
        conv_lhs => rw [← heq]
        exact List.getLast?_concat _
      have hflat' : (levels ++ [ns]).flatten = levels.flatten ++ ns := by
        simp [List.flatten_append]
      have hdrop' : (levels ++ [ns]).dropLast = levels := List.dropLast_concat
      have hloop' : ZkTree.buildLoop B leaves hT (List.range' (height + 1) m)
          (levels ++ [ns]).flatten (levels ++ [ns]).dropLast.flatten.length
          (levels ++ [ns]).flatten.length = .ok final := by
        rw [hflat', hdrop']
        have hl2 : (levels.flatten ++ ns).length =
            levels.flatten.length + 2 ^ (hT - height - 1) := by
          simp [hnslen]
        rw [hl2]
        exact hloop
      have hsz' : ∀ (i : Nat) (hi : i < (levels ++ [ns]).length),
          (levels ++ [ns])[i].length = 2 ^ (hT - 1 - i) := by
        intro i hi
        simp only [List.length_append, List.length_singleton] at hi
        by_cases hcase : i < levels.length
        · rw [List.getElem_append_left hcase]
          exact hsz i hcase
        · have hieq : i = levels.length := by omega
          subst hieq
          rw [List.getElem_append_right (by omega)]
          simp only [Nat.sub_self, List.getElem_singleton]
          rw [hnslen, hlen]
          congr 1
          omega
      have hlen' : (levels ++ [ns]).length = height + 1 := by
        simp [hlen]
      exact ih (height + 1) (levels ++ [ns]) final (by omega) (by omega)
        hchain' hlen' hsz' hloop'

/-- C9: on a power-of-two batch of more than one user proof, a successful
`ZkTree::new` stores one leaf proof per user proof and exactly `n - 1` node
proofs; the node proofs are the concatenation of levels built bottom-up,
level zero pairing adjacent leaf proofs and each level `k + 1` pairing
adjacent proofs `(2 i, 2 i + 1)` of level `k` (read starting at the level-`k`
start index of the flat vector); `ZkTree::root` returns the last node proof
produced. -/
theorem claim_C9 {F : Type} [Zero F] [DecidableEq F] (B : Backend F)
    (ups : List (UserProof F)) (h : Nat) (t : ZkTree F)
    (hlen : ups.length = 2 ^ h) (hh : 1 ≤ h)
    (hok : ZkTree.new B ups = .ok t) :
    t.leafProofs.length = ups.length ∧
    t.nodeProofs.length = ups.length - 1 ∧
    (∃ levels, LevelChain B t.leafProofs levels ∧ levels.length = h ∧
       t.nodeProofs = levels.flatten ∧
       ∀ (i : Nat) (hi : i < levels.length), levels[i].length = 2 ^ (h - 1 - i)) ∧
    (∃ rt, t.nodeProofs.getLast? = some rt ∧ ZkTree.root t = .ok rt) := by
  unfold ZkTree.new at hok
  rw [if_neg (by have := Nat.two_pow_pos h; omega)] at hok
  rw [hlen, ilog2_pow] at hok
  rcases hlps : mapPanic (LeafProof.new_from_user_proof B) ups with _ | e | lps <;>
    rw [hlps] at hok
  · exact absurd hok (by simp)
  · exact absurd hok (by simp)
  simp only [PanicOr.bind_ok] at hok
  have hlpslen : lps.length = ups.length := mapPanic_ok_length _ _ _ hlps
  have hrange : List.range h = 0 :: List.range' 1 (h - 1) := by
    rw [List.range_eq_range' h]
    have hx : h = (h - 1) + 1 := by omega
    conv_lhs => rw [hx]
    exact List.range'_succ 0 (h - 1) 1
  rw [hrange] at hok
  simp only [ZkTree.buildLoop, if_true] at hok
  rcases hgfl : generate_node_proofs_from_leaves B lps with _ | e | l0 <;> rw [hgfl] at hok
  · exact absurd hok (by simp)
  · exact absurd hok (by simp)
  simp only [PanicOr.bind_ok] at hok
  have hl0len : l0.length = 2 ^ (h - 1) := by
    have := gfl_ok_length B lps l0 hgfl
    rw [hlpslen, hlen] at this
    have h1 : 0 < 2 ^ (h - 1) := Nat.two_pow_pos (h - 1)
    have h2 : 2 ^ h = 2 * 2 ^ (h - 1) := by
      have hx : h = (h - 1) + 1 := by omega
      conv_lhs => rw [hx]
      rw [pow_succ]
      ring
    omega
  rcases hloop : ZkTree.buildLoop B lps h (List.range' 1 (h - 1)) ([] ++ l0) 0
      ([] ++ l0).length with _ | e | final <;> rw [hloop] at hok
  · exact absurd hok (by simp)
  · exact absurd hok (by simp)
  simp only [PanicOr.bind_ok, PanicOr.ok.injEq] at hok
  subst hok
  have hloop' : ZkTree.buildLoop B lps h (List.range' 1 (h - 1)) ([l0].flatten)
      ([l0].dropLast.flatten.length) ([l0].flatten.length) = .ok final := by
    have e1 : [l0].flatten = [] ++ l0 := by simp
    have e2 : ([l0] : List (List (NodeProof F))).dropLast.flatten.length = 0 := by simp
    rw [e1, e2]
    exact hloop
  obtain ⟨levels, hchain, hlevlen, hfinal, hsz⟩ :=
    buildLoop_spec B lps h (h - 1) 1 [l0] final (by omega) le_rfl
      (LevelChain.base l0 hgfl) rfl
      (by
        intro i hi
        simp only [List.length_singleton] at hi
        interval_cases i
        simpa using hl0len)
      hloop'
  have hmap : levels.map List.length = (List.range h).map (fun i => 2 ^ (h - 1 - i)) := by
    apply List.ext_getElem
    · simp [hlevlen]
    · intro i h1 h2
      simp only [List.getElem_map, List.getElem_range]
      have hb : i < levels.length := by simpa using h1
      rw [hsz i hb]
  have hcount : final.length = 2 ^ h - 1 := by
    rw [hfinal, List.length_flatten, hmap, pow_level_sum]
  refine ⟨by simpa [hlen] using hlpslen, by simpa [hlen] using hcount,
    ⟨levels, hchain, hlevlen, hfinal, by simpa [hlevlen] using hsz⟩, ?_⟩
  rcases hlast : final.getLast? with _ | rt
  · rw [List.getLast?_eq_none_iff] at hlast
    subst hlast
    have h2 : 2 ^ 1 ≤ 2 ^ h := Nat.pow_le_pow_right (by norm_num) hh
    simp at hcount
    omega
  · exact ⟨rt, rfl, by unfold ZkTree.root; rw [hlast]⟩

/-- Witness for C9: the concrete two-leaf tree. -/
theorem claim_C9_witness :
    ([u0, u1].length = 2 ^ 1 ∧ 1 ≤ 1 ∧ ZkTree.new B0 [u0, u1] = .ok t2) ∧
    (t2.leafProofs.length = [u0, u1].length ∧
     t2.nodeProofs.length = [u0, u1].length - 1 ∧
     (∃ levels, LevelChain B0 t2.leafProofs levels ∧ levels.length = 1 ∧
        t2.nodeProofs = levels.flatten ∧
        ∀ (i : Nat) (hi : i < levels.length), levels[i].length = 2 ^ (1 - 1 - i)) ∧
     (∃ rt, t2.nodeProofs.getLast? = some rt ∧ ZkTree.root t2 = .ok rt)) :=
  ⟨⟨by decide, by decide, by decide⟩,
   claim_C9 B0 [u0, u1] 1 t2 (by decide) (by decide) (by decide)⟩
